import Mathlib

/-
Shallow embedding of the intimacy-scoring core of the followup-coach
repository (lib/intimacy.ts, hooks/useToday.ts, components/AccountCard.tsx,
app/today/page.tsx, the weekly page).

Embedding conventions:
* Timestamps are integers (milliseconds since the epoch), and the evaluation
  instant `now` is threaded as an explicit parameter; the source reads
  Date.now() inline.  `null`/`undefined` timestamps are `Option.none`.
* JavaScript numbers are embedded as exact integers (`Int`) where the source
  only performs integer arithmetic, and as exact rationals (`Rat`) at the one
  place a genuine division occurs (the coverage rounding); for the small
  integer values arising there, IEEE double arithmetic agrees with exact
  rational arithmetic, so the embedding is faithful.
* Math.floor of an integer quotient is Int.fdiv; Math.round is
  floor (x + 1/2) (round half toward positive infinity), and Math.round
  applied to an integer-valued expression is the identity and is dropped.
* Array.prototype.sort is required by ECMAScript to be stable; it is embedded
  as List.mergeSort (stable) with the boolean order "comparator result <= 0".
-/

/-- Tier of an account, the closed enum "A" | "B" | "C" from lib/intimacy.ts. -/
inductive Tier where
  | A
  | B
  | C
deriving DecidableEq, Repr

/-- Business area of a contact, the closed enum from lib/intimacy.ts
(RD stands for the source string "R&D"). -/
inductive Area where
  | Marketing
  | RD
  | Procurement
  | Commercial
  | Directors
deriving DecidableEq, Repr

/-- AREAS constant from lib/intimacy.ts: the five areas in declaration order. -/
def AREAS : List Area :=
  [Area.Marketing, Area.RD, Area.Procurement, Area.Commercial, Area.Directors]

/-- Milliseconds per day, the divisor 1000*60*60*24 from the source. -/
def msPerDay : Int := 1000 * 60 * 60 * 24

/-- daysSince from lib/intimacy.ts (the same body appears in
components/AccountCard.tsx and at the top of app/today/page.tsx):
null input gives null, otherwise the floor of the elapsed day count,
clamped to 0 when negative. -/
def daysSince (now : Int) (iso : Option Int) : Option Int :=
  match iso with
  | none => none
  | some t =>
    let diff := Int.fdiv (now - t) msPerDay
    some (if diff < 0 then 0 else diff)

/-- daysSince as locally redefined in the weekly page (src/unnamed/part_005)
and in the second component of app/today/page.tsx: identical to the library
daysSince except that the result is NOT clamped at 0. -/
def daysSinceWeekly (now : Int) (iso : Option Int) : Option Int :=
  match iso with
  | none => none
  | some t => some (Int.fdiv (now - t) msPerDay)

/-- cadenceDays from lib/intimacy.ts: A maps to 7, B to 14, anything else
(only C remains in the closed enum) to 30. -/
def cadenceDays (tier : Tier) : Int :=
  if tier = Tier.A then 7 else if tier = Tier.B then 14 else 30

/-- cadenceByTier lookup table from app/today/page.tsx: A 7, B 14, C 30. -/
def cadenceByTier (tier : Tier) : Int :=
  match tier with
  | Tier.A => 7
  | Tier.B => 14
  | Tier.C => 30

/-- Contact row as consumed by the scoring core (hooks/useToday.ts
RawContact, restricted to the fields the core reads: id, owning account,
area, last touch timestamp). -/
structure Contact where
  id : Nat
  account_id : Nat
  area : Area
  last_touch_at : Option Int
deriving DecidableEq, Repr

/-- Account row as consumed by the scoring core (hooks/useToday.ts
RawAccount, restricted to the fields the core reads; names and countries
are character lists so the case-insensitive substring filter is explicit). -/
structure Account where
  id : Nat
  name : List Char
  tier : Tier
  country : Option (List Char)
  last_interaction_at : Option Int
deriving DecidableEq, Repr

/-- coverageByArea from lib/intimacy.ts: fold over the contacts, starting
from the all-zero record over the five areas, incrementing the bucket of
each contact's area.  (The source guard "map[c.area] != null" is always
true for the closed Area enum.) -/
def coverageByArea (contacts : List Contact) : Area → Nat :=
  contacts.foldl (fun map c => fun a => if a = c.area then map a + 1 else map a)
    (fun _ => 0)

/-- jsRound is JavaScript Math.round on an exact rational: floor (q + 1/2),
rounding halves toward positive infinity.  (Rat.floor is the computable
floor; it agrees with the Int.floor of Mathlib, see ratFloor_eq below.) -/
def jsRound (q : ℚ) : Int := Rat.floor (q + 1 / 2)

/-- Label of a score, the string union "Strong" | "Ok" | "Risk". -/
inductive ScoreLabel where
  | Strong
  | Ok
  | Risk
deriving DecidableEq, Repr

/-- Tone of a score, the string union "good" | "neutral" | "warn". -/
inductive Tone where
  | good
  | neutral
  | warn
deriving DecidableEq, Repr

/-- IntimacyScore record from lib/intimacy.ts. -/
structure IntimacyScore where
  total : Int
  label : ScoreLabel
  tone : Tone
  recency : Int
  coverage : Int
  coveredAreas : Nat
  missing : List Area
  counts : Area → Nat
  cadence : Int
  d : Option Int

/-- computeIntimacyScore from lib/intimacy.ts.  Math.round on the
integer-valued recency and on recency + coverage is the identity and is
dropped (see the header comment). -/
def computeIntimacyScore (now : Int) (account : Account) (contacts : List Contact) :
    IntimacyScore :=
  let cadence := cadenceDays account.tier
  let d := daysSince now account.last_interaction_at
  let recency : Int :=
    match d with
    | none => 0
    | some dv => if dv ≤ cadence then 60 else max 0 (60 - (dv - cadence) * 5)
  let counts := coverageByArea contacts
  let coveredAreas : Nat :=
    AREAS.foldl (fun acc ar => acc + (if counts ar > 0 then 1 else 0)) 0
  let coverage : Int := jsRound (((coveredAreas : ℚ) / (AREAS.length : ℚ)) * 40)
  let total : Int := max 0 (min 100 (recency + coverage))
  { total := total
    label := if total ≥ 80 then ScoreLabel.Strong
             else if total ≥ 55 then ScoreLabel.Ok else ScoreLabel.Risk
    tone := if total ≥ 80 then Tone.good
            else if total ≥ 55 then Tone.neutral else Tone.warn
    recency := recency
    coverage := coverage
    coveredAreas := coveredAreas
    missing := AREAS.filter (fun ar => counts ar = 0)
    counts := counts
    cadence := cadence
    d := d }

/-- Comparator passed to the sort inside pickRecommendedContact in
lib/intimacy.ts: never-touched contacts first, then larger day counts first. -/
def recCmp (now : Int) (a b : Contact) : Int :=
  let da := daysSince now a.last_touch_at
  let db := daysSince now b.last_touch_at
  let aNever := da.isNone
  let bNever := db.isNone
  if aNever && !bNever then -1
  else if !aNever && bNever then 1
  else db.getD (-1) - da.getD (-1)

/-- Boolean order induced by the comparator: a sorts no later than b exactly
when the comparator result is at most 0 (ECMAScript sort semantics). -/
def recLe (now : Int) (a b : Contact) : Bool := decide (recCmp now a b ≤ 0)

/-- pickRecommendedContact from lib/intimacy.ts: null on the empty list,
otherwise the first element of the (stable) sort by the comparator. -/
def pickRecommendedContact (now : Int) (contacts : List Contact) : Option Contact :=
  if contacts.isEmpty then none
  else (contacts.mergeSort (fun a b => recLe now a b)).head?

/-- isAccountDue from lib/intimacy.ts: never contacted is due, otherwise due
exactly when the day count strictly exceeds the tier cadence. -/
def isAccountDue (now : Int) (account : Account) : Bool :=
  match daysSince now account.last_interaction_at with
  | none => true
  | some d => d > cadenceDays account.tier

/-- dueSoon filter predicate from app/today/page.tsx (first page component):
never contacted is due, otherwise due when the day count is greater than or
EQUAL to the tier cadence. -/
def dueSoonPred (now : Int) (a : Account) : Bool :=
  match daysSince now a.last_interaction_at with
  | none => true
  | some d => d ≥ cadenceByTier a.tier

/-- dueSoon list from app/today/page.tsx: the filtered accounts passing the
dueSoon predicate, rendered there under the "Must contact" heading. -/
def dueSoon (now : Int) (filtered : List Account) : List Account :=
  filtered.filter (fun a => dueSoonPred now a)

/-
Runtime-level model of the enum handling.  TypeScript unions are erased at
runtime; rows fetched from the database may carry arbitrary strings in the
tier and area columns, so the following definitions embed cadenceDays and
coverageByArea over raw strings exactly as the JavaScript executes them.
-/

/-- AREAS at the string level: the keys of the record literal initialised
inside coverageByArea in lib/intimacy.ts. -/
def AREAS_STR : List String :=
  ["Marketing", "R&D", "Procurement", "Commercial", "Directors"]

/-- Contact as the runtime sees it: the area column is an arbitrary string. -/
structure SContact where
  area : String
deriving DecidableEq, Repr

/-- cadenceDays from lib/intimacy.ts executed on an arbitrary runtime string:
the trailing return 30 catches every unrecognized tier value silently. -/
def cadenceDaysStr (tier : String) : Int :=
  if tier = "A" then 7 else if tier = "B" then 14 else 30

/-- coverageByArea from lib/intimacy.ts executed on arbitrary runtime
strings: the guard "map[c.area] != null" is false for any area string that
is not a key of the record, so such a contact is silently skipped. -/
def coverageByAreaStr (contacts : List SContact) : String → Nat :=
  contacts.foldl
    (fun map c =>
      if AREAS_STR.contains c.area then
        fun a => if a = c.area then map a + 1 else map a
      else map)
    (fun _ => 0)

/-
Model of hooks/useToday.ts: the text/tier filter, the enrichment of each
account, and the two sorted lists the hook returns.  Display-only fields of
EnrichedAccount (formatted money and touch strings) are omitted; every field
the claims mention is present.
-/

/-- jsTrim models String.prototype.trim: drop whitespace from both ends. -/
def jsTrim (s : List Char) : List Char :=
  ((s.dropWhile Char.isWhitespace).reverse.dropWhile Char.isWhitespace).reverse

/-- Filter predicate from hooks/useToday.ts (allEnriched useMemo): an exact
tier filter, then a case-insensitive substring match of the trimmed search
text against the account name or country (empty search matches everything). -/
def matchesFilter (search : List Char) (tierFilter : Option Tier) (a : Account) : Bool :=
  let q := (jsTrim search).map Char.toLower
  (match tierFilter with
   | some t => a.tier = t
   | none => true) &&
  (q.isEmpty ||
    decide (q <:+: a.name.map Char.toLower) ||
    decide (q <:+: ((a.country.getD []).map Char.toLower)))

/-- EnrichedAccount from hooks/useToday.ts, restricted to the fields the
worklist claims mention. -/
structure EnrichedAccount where
  acct : Account
  score : IntimacyScore
  isDue : Bool
  contacts : List Contact
  recommendedContact : Option Contact

/-- allEnriched from hooks/useToday.ts: filter the raw accounts, then enrich
each with its contacts (grouping by account id preserves fetch order, which
equals a filter on account_id), its score, its due flag and its recommended
contact. -/
def allEnriched (now : Int) (rawAccounts : List Account) (rawContacts : List Contact)
    (search : List Char) (tierFilter : Option Tier) : List EnrichedAccount :=
  (rawAccounts.filter (matchesFilter search tierFilter)).map (fun a =>
    let contacts := rawContacts.filter (fun c => c.account_id = a.id)
    { acct := a
      score := computeIntimacyScore now a contacts
      isDue := isAccountDue now a
      contacts := contacts
      recommendedContact := pickRecommendedContact now contacts })

/-- Comparator of the mustContact sort in hooks/useToday.ts: difference of
totals, and on equal totals difference of coverages. -/
def mustCmp (x y : EnrichedAccount) : Int :=
  if x.score.total ≠ y.score.total then x.score.total - y.score.total
  else x.score.coverage - y.score.coverage

/-- mustContact from hooks/useToday.ts: the due subset of the enriched
accounts, stably sorted by the mustCmp comparator. -/
def mustContact (now : Int) (rawAccounts : List Account) (rawContacts : List Contact)
    (search : List Char) (tierFilter : Option Tier) : List EnrichedAccount :=
  ((allEnriched now rawAccounts rawContacts search tierFilter).filter
      (fun a => a.isDue)).mergeSort
    (fun x y => decide (mustCmp x y ≤ 0))

/-- allSorted from hooks/useToday.ts: every enriched account, stably sorted
by the difference of totals. -/
def allSorted (now : Int) (rawAccounts : List Account) (rawContacts : List Contact)
    (search : List Char) (tierFilter : Option Tier) : List EnrichedAccount :=
  (allEnriched now rawAccounts rawContacts search tierFilter).mergeSort
    (fun x y => decide (x.score.total - y.score.total ≤ 0))

/-- Spec-side formula for the recency component, written from the words of
section 4.5 of the spec (with the canonical penaltyPerDay = 5), to be
compared with the recency field computeIntimacyScore produces. -/
def recencySpec (d : Option Int) (c : Int) : Int :=
  match d with
  | none => 0
  | some dv => if dv ≤ c then 60 else max 0 (60 - (dv - c) * 5)

/-- Number of covered areas, written from the words of section 4.3 of the
spec: an area is covered when it has at least one contact. -/
def coveredAreaCount (contacts : List Contact) : Nat :=
  (AREAS.filter (fun ar => coverageByArea contacts ar ≥ 1)).length

/-- Spec-side formula for the coverage component, written from the words of
the spec: round (40 * coveredAreaCount / 5). -/
def coverageSpec (contacts : List Contact) : Int :=
  jsRound (40 * (coveredAreaCount contacts : ℚ) / 5)

/-- Scenario A of the spec: a tier A account whose last interaction was
exactly 10 days before the evaluation instant. -/
def scenarioAAccount : Account :=
  { id := 1, name := [], tier := Tier.A, country := none,
    last_interaction_at := some 0 }

/-- Scenario A of the spec: contacts covering exactly 3 of the 5 areas. -/
def scenarioAContacts : List Contact :=
  [ { id := 1, account_id := 1, area := Area.Marketing, last_touch_at := none },
    { id := 2, account_id := 1, area := Area.RD, last_touch_at := none },
    { id := 3, account_id := 1, area := Area.Procurement, last_touch_at := none } ]

/-- Scenario A of the spec: the evaluation instant, 10 days after the
account's last interaction. -/
def scenarioANow : Int := 10 * msPerDay

/-
Helper lemmas shared by the claim theorems.
-/

theorem ratFloor_eq_intFloor (q : ℚ) : q.floor = ⌊q⌋ := by
  rw [Rat.floor_def', ← Rat.floor_def]

theorem jsRound_covered (n : ℕ) : jsRound ((n : ℚ) / 5 * 40) = 8 * n := by
  rw [jsRound, ratFloor_eq_intFloor]
  have h2 : (n : ℚ) / 5 * 40 + 1 / 2 = ((8 * (n : ℤ) : ℤ) : ℚ) + 1 / 2 := by
    push_cast
    ring
  rw [h2, Int.floor_int_add]
  norm_num

theorem foldl_count_ones {α : Type} (p : α → Prop) [DecidablePred p] (l : List α)
    (acc : Nat) :
    l.foldl (fun a x => a + (if p x then 1 else 0)) acc =
      acc + l.countP (fun x => decide (p x)) := by
  induction l generalizing acc with
  | nil => simp
  | cons x xs ih =>
    rw [List.foldl_cons, ih, List.countP_cons]
    by_cases hx : p x <;> simp [hx] <;> omega

theorem daysSince_eq_none_iff (now : Int) (iso : Option Int) :
    daysSince now iso = none ↔ iso = none := by
  cases iso <;> simp [daysSince]

theorem daysSince_nonneg (now : Int) (iso : Option Int) (d : Int)
    (h : daysSince now iso = some d) : 0 ≤ d := by
  cases iso with
  | none => simp [daysSince] at h
  | some t =>
    simp only [daysSince, Option.some.injEq] at h
    split at h <;> omega

theorem recLe_trans (now : Int) (a b c : Contact) (hab : recLe now a b = true)
    (hbc : recLe now b c = true) : recLe now a c = true := by
  simp only [recLe, recCmp, decide_eq_true_eq] at *
  rcases hda : daysSince now a.last_touch_at with _ | da <;>
    rcases hdb : daysSince now b.last_touch_at with _ | db <;>
      rcases hdc : daysSince now c.last_touch_at with _ | dc <;>
        simp_all <;> omega

theorem recLe_total (now : Int) (a b : Contact) :
    (recLe now a b || recLe now b a) = true := by
  simp only [recLe, recCmp, Bool.or_eq_true, decide_eq_true_eq]
  rcases hda : daysSince now a.last_touch_at with _ | da <;>
    rcases hdb : daysSince now b.last_touch_at with _ | db <;>
      simp_all <;> omega

theorem recLe_refl (now : Int) (a : Contact) : recLe now a a = true := by
  have h := recLe_total now a a
  simpa using h

theorem pick_eq_head (now : Int) (contacts : List Contact) (h : contacts ≠ []) :
    ∃ r t, contacts.mergeSort (fun a b => recLe now a b) = r :: t ∧
      pickRecommendedContact now contacts = some r ∧ r ∈ contacts ∧
      ∀ c ∈ contacts, recLe now r c = true := by
  obtain ⟨r, t, hrt⟩ : ∃ r t,
      contacts.mergeSort (fun a b => recLe now a b) = r :: t := by
    cases hms : contacts.mergeSort (fun a b => recLe now a b) with
    | nil =>
      exfalso
      have hp := List.mergeSort_perm contacts (fun a b => recLe now a b)
      rw [hms] at hp
      exact h (hp.symm.eq_nil)
    | cons r t => exact ⟨r, t, rfl⟩
  have hsorted := @List.sorted_mergeSort Contact (fun a b => recLe now a b)
    (fun a b c => recLe_trans now a b c) (fun a b => recLe_total now a b) contacts
  rw [hrt] at hsorted
  have hhead : ∀ c ∈ t, recLe now r c = true := (List.pairwise_cons.mp hsorted).1
  have hmem : r ∈ contacts := by
    have : r ∈ contacts.mergeSort (fun a b => recLe now a b) := by
      rw [hrt]
      exact List.mem_cons_self r t
    exact List.mem_mergeSort.mp this
  refine ⟨r, t, hrt, ?_, hmem, ?_⟩
  · rw [pickRecommendedContact]
    have hne : contacts.isEmpty = false := by
      cases contacts with
      | nil => exact absurd rfl h
      | cons x xs => rfl
    rw [hne]
    simp [hrt]
  · intro c hc
    have : c ∈ contacts.mergeSort (fun a b => recLe now a b) :=
      List.mem_mergeSort.mpr hc
    rw [hrt] at this
    rcases List.mem_cons.mp this with hcr | hct
    · subst hcr
      exact recLe_refl now c
    · exact hhead c hct

theorem mustCmp_le_iff (x y : EnrichedAccount) :
    mustCmp x y ≤ 0 ↔
      (x.score.total < y.score.total ∨
        (x.score.total = y.score.total ∧ x.score.coverage ≤ y.score.coverage)) := by
  rw [mustCmp]
  by_cases h : x.score.total = y.score.total <;> simp [h] <;> omega

theorem mustLe_trans (x y z : EnrichedAccount)
    (hxy : decide (mustCmp x y ≤ 0) = true) (hyz : decide (mustCmp y z ≤ 0) = true) :
    decide (mustCmp x z ≤ 0) = true := by
  simp only [decide_eq_true_eq, mustCmp_le_iff] at *
  omega

theorem mustLe_total (x y : EnrichedAccount) :
    (decide (mustCmp x y ≤ 0) || decide (mustCmp y x ≤ 0)) = true := by
  simp only [Bool.or_eq_true, decide_eq_true_eq, mustCmp_le_iff]
  omega

theorem computeIntimacyScore_coverage (now : Int) (a : Account) (cs : List Contact) :
    (computeIntimacyScore now a cs).coverage =
      8 * (AREAS.countP (fun ar => decide (coverageByArea cs ar > 0)) : ℤ) := by
  simp only [computeIntimacyScore]
  rw [foldl_count_ones (fun ar => coverageByArea cs ar > 0)]
  rw [show (AREAS.length : ℚ) = 5 by rfl]
  rw [show ((0 + AREAS.countP fun ar => decide (coverageByArea cs ar > 0)) : ℕ) =
    AREAS.countP fun ar => decide (coverageByArea cs ar > 0) by omega]
  rw [jsRound_covered]

theorem covered_le_five (cs : List Contact) :
    AREAS.countP (fun ar => decide (coverageByArea cs ar > 0)) ≤ 5 := by
  have h : AREAS.countP (fun ar => decide (coverageByArea cs ar > 0)) ≤
      AREAS.length :=
    List.countP_le_length _
  simpa [AREAS] using h

theorem computeIntimacyScore_recency_bounds (now : Int) (a : Account)
    (cs : List Contact) : 0 ≤ (computeIntimacyScore now a cs).recency ∧
      (computeIntimacyScore now a cs).recency ≤ 60 := by
  simp only [computeIntimacyScore]
  rcases hd : daysSince now a.last_interaction_at with _ | dv
  · simp
  · simp only []
    split <;> omega

theorem computeIntimacyScore_total_shape (now : Int) (a : Account) (cs : List Contact) :
    (computeIntimacyScore now a cs).total =
      max 0 (min 100 ((computeIntimacyScore now a cs).recency +
        (computeIntimacyScore now a cs).coverage)) := by
  simp only [computeIntimacyScore]

theorem computeIntimacyScore_label_shape (now : Int) (a : Account) (cs : List Contact) :
    (computeIntimacyScore now a cs).label =
      (if (computeIntimacyScore now a cs).total ≥ 80 then ScoreLabel.Strong
       else if (computeIntimacyScore now a cs).total ≥ 55 then ScoreLabel.Ok
       else ScoreLabel.Risk) := by
  simp only [computeIntimacyScore]

theorem totLe_trans (x y z : EnrichedAccount)
    (hxy : decide (x.score.total - y.score.total ≤ 0) = true)
    (hyz : decide (y.score.total - z.score.total ≤ 0) = true) :
    decide (x.score.total - z.score.total ≤ 0) = true := by
  simp only [decide_eq_true_eq] at *
  omega

theorem totLe_total (x y : EnrichedAccount) :
    (decide (x.score.total - y.score.total ≤ 0) ||
      decide (y.score.total - x.score.total ≤ 0)) = true := by
  simp only [Bool.or_eq_true, decide_eq_true_eq]
  omega

/-
Claim theorems.
-/

/-- C1: for every account and fixed evaluation instant, the recency
component of computeIntimacyScore is 0 when daysSince of the last
interaction is null, 60 when the day count d is at most the tier cadence,
and otherwise max 0 (60 - (d - cadence) * 5): the overdue penalty per day
is exactly 5, matching the spec formula recencySpec. -/
theorem recency_component_penalty_five (now : Int) (a : Account) (cs : List Contact) :
    (computeIntimacyScore now a cs).recency =
      recencySpec (daysSince now a.last_interaction_at) (cadenceDays a.tier) := by
  rcases h : daysSince now a.last_interaction_at with _ | dv <;>
    simp [computeIntimacyScore, recencySpec, h]

/-- C2: with now fixed, a tier A account whose last interaction was exactly
10 days before now, with contacts covering exactly 3 of the 5 areas, scores
recency 45, coverage 24, total 69 and label Ok. -/
theorem scenarioA_evaluation :
    (computeIntimacyScore scenarioANow scenarioAAccount scenarioAContacts).recency = 45 ∧
    (computeIntimacyScore scenarioANow scenarioAAccount scenarioAContacts).coverage = 24 ∧
    (computeIntimacyScore scenarioANow scenarioAAccount scenarioAContacts).total = 69 ∧
    (computeIntimacyScore scenarioANow scenarioAAccount scenarioAContacts).label =
      ScoreLabel.Ok := by
  have hcov : (computeIntimacyScore scenarioANow scenarioAAccount
      scenarioAContacts).coverage = 24 := by
    rw [computeIntimacyScore_coverage]
    decide
  have hrec : (computeIntimacyScore scenarioANow scenarioAAccount
      scenarioAContacts).recency = 45 := by decide
  have htot : (computeIntimacyScore scenarioANow scenarioAAccount
      scenarioAContacts).total = 69 := by
    rw [computeIntimacyScore_total_shape, hcov, hrec]
    omega
  have hlab : (computeIntimacyScore scenarioANow scenarioAAccount
      scenarioAContacts).label = ScoreLabel.Ok := by
    rw [computeIntimacyScore_label_shape, htot]
    norm_num
  exact ⟨hrec, hcov, htot, hlab⟩

/-- C4: the canonical isAccountDue is NOT due at day count exactly equal to
the cadence (strict comparison), while the dueSoon filter that the Today
page renders under the "Must contact" heading DOES include that account
(non-strict comparison): evaluated at a tier A account whose last
interaction was exactly 7 days ago. -/
theorem due_boundary_divergence :
    isAccountDue (7 * msPerDay)
        { id := 1, name := [], tier := Tier.A, country := none,
          last_interaction_at := some 0 } = false ∧
    dueSoon (7 * msPerDay)
        [ { id := 1, name := [], tier := Tier.A, country := none,
            last_interaction_at := some 0 } ] =
      [ { id := 1, name := [], tier := Tier.A, country := none,
          last_interaction_at := some 0 } ] := by
  exact ⟨by decide, by decide⟩

/-- C6: the coverage component of computeIntimacyScore equals the spec
formula round (40 * coveredAreaCount / 5), lies in [0, 40], and is 40 iff
every one of the five areas has at least one contact. -/
theorem coverage_component_spec (now : Int) (a : Account) (cs : List Contact) :
    (computeIntimacyScore now a cs).coverage = coverageSpec cs ∧
    0 ≤ (computeIntimacyScore now a cs).coverage ∧
    (computeIntimacyScore now a cs).coverage ≤ 40 ∧
    ((computeIntimacyScore now a cs).coverage = 40 ↔
      ∀ ar ∈ AREAS, coverageByArea cs ar ≥ 1) := by
  have hcov := computeIntimacyScore_coverage now a cs
  have hpred : (fun ar => decide (coverageByArea cs ar > 0)) =
      (fun ar => decide (coverageByArea cs ar ≥ 1)) := by
    funext ar
    rw [decide_eq_decide]
    omega
  have hk := covered_le_five cs
  have hspec : coverageSpec cs =
      8 * (AREAS.countP (fun ar => decide (coverageByArea cs ar > 0)) : ℤ) := by
    rw [coverageSpec, coveredAreaCount,
      show (40 * ((AREAS.filter (fun ar => coverageByArea cs ar ≥ 1)).length : ℚ) / 5) =
        (((AREAS.filter (fun ar => coverageByArea cs ar ≥ 1)).length : ℚ) / 5 * 40) by ring,
      jsRound_covered, ← List.countP_eq_length_filter, hpred]
  refine ⟨by rw [hcov, hspec], by rw [hcov]; positivity, by rw [hcov]; omega, ?_⟩
  rw [hcov]
  constructor
  · intro h40
    have hc5 : AREAS.countP (fun ar => decide (coverageByArea cs ar > 0)) = 5 := by
      omega
    have hlen : AREAS.countP (fun ar => decide (coverageByArea cs ar > 0)) =
        AREAS.length := by
      rw [hc5]
      rfl
    have := List.countP_eq_length.mp hlen
    intro ar har
    have h2 := this ar har
    simp only [decide_eq_true_eq] at h2
    omega
  · intro hall
    have hlen : AREAS.countP (fun ar => decide (coverageByArea cs ar > 0)) =
        AREAS.length := by
      apply List.countP_eq_length.mpr
      intro ar har
      simp only [decide_eq_true_eq]
      exact hall ar har
    rw [hlen]
    rfl

/-- C7: the library daysSince clamps a future timestamp to 0, but the
weekly page re-implementation returns a negative day count for the same
input (timestamp two days in the future of the evaluation instant). -/
theorem daysSince_clamp_divergence :
    daysSince 0 (some (2 * msPerDay)) = some 0 ∧
    daysSinceWeekly 0 (some (2 * msPerDay)) = some (-2) := by
  exact ⟨by decide, by decide⟩

/-- C8: on an unrecognized enum value the scoring core does not fail: an
unknown tier string silently falls through cadenceDays to the default 30,
and a contact with an unknown area string is silently ignored by
coverageByArea (every bucket stays 0, including the unknown key itself),
instead of raising a ValidationError. -/
theorem unknown_enum_silent_default :
    cadenceDaysStr "Z" = 30 ∧
    (∀ a ∈ AREAS_STR, coverageByAreaStr [{ area := "Sales" }] a = 0) ∧
    coverageByAreaStr [{ area := "Sales" }] "Sales" = 0 := by
  refine ⟨by decide, by decide, by decide⟩

/-- C10: the total of computeIntimacyScore is exactly recency plus coverage
(the final round and clamp to [0, 100] never change the value), with
recency an integer in [0, 60] and coverage an integer multiple of 8 in
[0, 40]. -/
theorem total_is_recency_add_coverage (now : Int) (a : Account) (cs : List Contact) :
    (computeIntimacyScore now a cs).total =
      (computeIntimacyScore now a cs).recency +
        (computeIntimacyScore now a cs).coverage ∧
    0 ≤ (computeIntimacyScore now a cs).recency ∧
    (computeIntimacyScore now a cs).recency ≤ 60 ∧
    0 ≤ (computeIntimacyScore now a cs).coverage ∧
    (computeIntimacyScore now a cs).coverage ≤ 40 ∧
    (∃ k : ℕ, k ≤ 5 ∧ (computeIntimacyScore now a cs).coverage = 8 * k) := by
  have hrb := computeIntimacyScore_recency_bounds now a cs
  have hcov := computeIntimacyScore_coverage now a cs
  have hk := covered_le_five cs
  have hkz : (AREAS.countP (fun ar => decide (coverageByArea cs ar > 0)) : ℤ) ≤ 5 := by
    exact_mod_cast hk
  refine ⟨?_, hrb.1, hrb.2, by rw [hcov]; positivity, by omega, ?_⟩
  · rw [computeIntimacyScore_total_shape]
    omega
  · exact ⟨AREAS.countP (fun ar => decide (coverageByArea cs ar > 0)), hk, by
      rw [hcov]⟩

/-- C3: pickRecommendedContact returns null exactly on the empty list; when
some contact was never touched it returns a never-touched contact; when
every contact has been touched it returns a member whose daysSince of the
last touch is maximal. -/
theorem pickRecommendedContact_spec (now : Int) (contacts : List Contact) :
    (pickRecommendedContact now contacts = none ↔ contacts = []) ∧
    ((∃ c ∈ contacts, c.last_touch_at = none) →
      ∃ r, pickRecommendedContact now contacts = some r ∧ r ∈ contacts ∧
        r.last_touch_at = none) ∧
    (contacts ≠ [] → (∀ c ∈ contacts, c.last_touch_at ≠ none) →
      ∃ r dr, pickRecommendedContact now contacts = some r ∧ r ∈ contacts ∧
        daysSince now r.last_touch_at = some dr ∧
        ∀ c ∈ contacts, ∀ dc, daysSince now c.last_touch_at = some dc → dc ≤ dr) := by
  refine ⟨⟨?_, ?_⟩, ?_, ?_⟩
  · intro hnone
    by_contra hne
    obtain ⟨r, t, _, hpick, _, _⟩ := pick_eq_head now contacts hne
    rw [hpick] at hnone
    exact Option.noConfusion hnone
  · intro h
    subst h
    rfl
  · rintro ⟨c0, hc0, hc0n⟩
    have hne : contacts ≠ [] := by
      intro h
      subst h
      simp at hc0
    obtain ⟨r, t, hrt, hpick, hmem, hmin⟩ := pick_eq_head now contacts hne
    refine ⟨r, hpick, hmem, ?_⟩
    have h1 := hmin c0 hc0
    rcases hrv : r.last_touch_at with _ | rv
    · rfl
    · exfalso
      simp only [recLe, recCmp, decide_eq_true_eq] at h1
      rw [hrv, hc0n] at h1
      simp [daysSince] at h1
  · intro hne hall
    obtain ⟨r, t, hrt, hpick, hmem, hmin⟩ := pick_eq_head now contacts hne
    rcases hrv : r.last_touch_at with _ | rv
    · exact absurd hrv (hall r hmem)
    · obtain ⟨dr, hdr⟩ : ∃ dr, daysSince now r.last_touch_at = some dr := by
        rw [hrv]
        exact ⟨_, rfl⟩
      refine ⟨r, dr, hpick, hmem, hdr, ?_⟩
      intro c hc dc hdc
      have h1 := hmin c hc
      simp only [recLe, recCmp, decide_eq_true_eq] at h1
      rw [hdr, hdc] at h1
      simp [Option.getD] at h1
      omega

/-- C3 witness: on a concrete two-contact list with one never-touched
contact, the theorem yields a never-touched recommended contact. -/
theorem pickRecommendedContact_spec_witness :
    ∃ r, pickRecommendedContact 0
        [ { id := 1, account_id := 1, area := Area.Marketing, last_touch_at := none },
          { id := 2, account_id := 1, area := Area.Marketing,
            last_touch_at := some 0 } ] = some r ∧
      r ∈ [ ({ id := 1, account_id := 1, area := Area.Marketing,
               last_touch_at := none } : Contact),
            { id := 2, account_id := 1, area := Area.Marketing,
              last_touch_at := some 0 } ] ∧
      r.last_touch_at = none :=
  (pickRecommendedContact_spec 0 _).2.1
    ⟨{ id := 1, account_id := 1, area := Area.Marketing, last_touch_at := none },
      by simp, rfl⟩

/-- C5: mustContact is a permutation of the due subset of the filtered,
enriched accounts and is sorted ascending by total with ties broken by
ascending coverage; allSorted is a permutation of all filtered, enriched
accounts sorted ascending by total. -/
theorem worklist_spec (now : Int) (rawAccounts : List Account)
    (rawContacts : List Contact) (search : List Char) (tierFilter : Option Tier) :
    (mustContact now rawAccounts rawContacts search tierFilter).Perm
      ((allEnriched now rawAccounts rawContacts search tierFilter).filter
        (fun a => a.isDue)) ∧
    List.Pairwise
      (fun x y => x.score.total < y.score.total ∨
        (x.score.total = y.score.total ∧ x.score.coverage ≤ y.score.coverage))
      (mustContact now rawAccounts rawContacts search tierFilter) ∧
    (allSorted now rawAccounts rawContacts search tierFilter).Perm
      (allEnriched now rawAccounts rawContacts search tierFilter) ∧
    List.Pairwise (fun x y => x.score.total ≤ y.score.total)
      (allSorted now rawAccounts rawContacts search tierFilter) := by
  refine ⟨List.mergeSort_perm _ _, ?_, List.mergeSort_perm _ _, ?_⟩
  · have h := @List.sorted_mergeSort EnrichedAccount
      (fun x y => decide (mustCmp x y ≤ 0)) mustLe_trans mustLe_total
      ((allEnriched now rawAccounts rawContacts search tierFilter).filter
        (fun a => a.isDue))
    refine h.imp ?_
    intro a b hab
    simp only [decide_eq_true_eq, mustCmp_le_iff] at hab
    exact hab
  · have h := @List.sorted_mergeSort EnrichedAccount
      (fun x y => decide (x.score.total - y.score.total ≤ 0))
      totLe_trans totLe_total
      (allEnriched now rawAccounts rawContacts search tierFilter)
    refine h.imp ?_
    intro a b hab
    simp only [decide_eq_true_eq] at hab
    omega

unseal List.merge List.mergeSort in
/-- C9 counterexample: two touched contacts tied as most overdue, listed in
the order id 2 then id 1; the code returns the first of the tied contacts
in input order (id 2), not the one with the smallest id (id 1). -/
theorem pick_tie_not_min_id :
    pickRecommendedContact 0
        [ { id := 2, account_id := 1, area := Area.Marketing, last_touch_at := some 0 },
          { id := 1, account_id := 1, area := Area.Marketing,
            last_touch_at := some 0 } ] =
      some { id := 2, account_id := 1, area := Area.Marketing,
             last_touch_at := some 0 } ∧
    pickRecommendedContact 0
        [ { id := 2, account_id := 1, area := Area.Marketing, last_touch_at := some 0 },
          { id := 1, account_id := 1, area := Area.Marketing,
            last_touch_at := some 0 } ] ≠
      some { id := 1, account_id := 1, area := Area.Marketing,
             last_touch_at := some 0 } := by
  exact ⟨by decide, by decide⟩

/-- C9 amended: among pairwise-distinct contacts, when the contact f is
most overdue (it sorts no later than every contact) and every contact
before it in the input list sorts strictly later, pickRecommendedContact
returns f: ties are broken by input-list order (the sort is stable), not
by smallest contact id. -/
theorem pick_tie_first_in_input (now : Int) (l₁ l₂ : List Contact) (f : Contact)
    (hmin : ∀ c ∈ l₁ ++ f :: l₂, recLe now f c = true)
    (hfirst : ∀ c ∈ l₁, recLe now c f = false)
    (hnd : (l₁ ++ f :: l₂).Nodup) :
    pickRecommendedContact now (l₁ ++ f :: l₂) = some f := by
  have hne : l₁ ++ f :: l₂ ≠ [] := by simp
  obtain ⟨r, t, hrt, hpick, hmem, hminr⟩ := pick_eq_head now (l₁ ++ f :: l₂) hne
  by_cases hrf2 : r = f
  · rw [hpick, hrf2]
  · exfalso
    have hfr : recLe now f r = true := hmin r hmem
    have hrf : recLe now r f = true := hminr f (by simp)
    have hrnotl1 : r ∉ l₁ := by
      intro hr
      rw [hfirst r hr] at hrf
      exact Bool.noConfusion hrf
    have hrl2 : r ∈ l₂ := by
      rcases List.mem_append.mp hmem with h1 | h2
      · exact absurd h1 hrnotl1
      · rcases List.mem_cons.mp h2 with h | h
        · exact absurd h hrf2
        · exact h
    have hsub : List.Sublist [f, r] (l₁ ++ f :: l₂) := by
      have hfr2 : List.Sublist [f, r] (f :: l₂) :=
        List.cons_sublist_cons.mpr (List.singleton_sublist.mpr hrl2)
      exact hfr2.trans (List.sublist_append_right l₁ (f :: l₂))
    have hpair := List.pair_sublist_mergeSort
      (fun a b c => recLe_trans now a b c) (fun a b => recLe_total now a b) hfr hsub
    rw [hrt] at hpair
    have hnds : (r :: t).Nodup := by
      have hp := List.mergeSort_perm (l₁ ++ f :: l₂) (fun a b => recLe now a b)
      rw [hrt] at hp
      exact hp.symm.nodup hnd
    cases hpair with
    | cons _ h =>
      have hrt2 : r ∈ t := h.subset (by simp)
      exact (List.nodup_cons.mp hnds).1 hrt2
    | cons₂ _ h =>
      exact hrf2 rfl

/-- C9 amended witness: on the concrete tied pair from the counterexample,
the amended theorem returns the first tied contact in input order. -/
theorem pick_tie_first_in_input_witness :
    pickRecommendedContact 0
        [ { id := 2, account_id := 1, area := Area.Marketing, last_touch_at := some 0 },
          { id := 1, account_id := 1, area := Area.Marketing,
            last_touch_at := some 0 } ] =
      some { id := 2, account_id := 1, area := Area.Marketing,
             last_touch_at := some 0 } :=
  pick_tie_first_in_input 0 []
    [ { id := 1, account_id := 1, area := Area.Marketing, last_touch_at := some 0 } ]
    { id := 2, account_id := 1, area := Area.Marketing, last_touch_at := some 0 }
    (by decide) (by decide) (by decide)
